/-
Verification of the motion-based highlight detector and clip assembler
(`src/clip_video.py`, class `VideoClipper`).

Shallow embedding conventions:
* Python floats are idealised as exact arithmetic: pixel coordinates and
  frame rates become `ℝ` (Euclidean distance needs a square root), while
  the smoothing / thresholding / interval arithmetic, which only ever
  divides rationals, stays in `ℚ` so that it is executable.
* Missing keypoint data (NaN coordinates in the dataframe) is modelled as
  `Option.none`; the source's `np.isnan` guard becomes a `match` on the
  two optional endpoints.
* The one fallible numeric step of `calculate_speed` — `1 / self.fps`
  raises `ZeroDivisionError` when the fps is `0` and the loop body runs,
  i.e. when there are at least two frames — is modelled by an explicit
  error branch of an `Except`.
* `pd.Series(xs).rolling(window=W).mean().fillna(0)` with the default
  `min_periods = W` yields `NaN` (hence, after `fillna`, `0`) at every
  position with fewer than `W` samples available, and the mean of the
  trailing `W`-sample window elsewhere; `np.mean` / `np.std` are the
  arithmetic mean and the population standard deviation.
-/
import Mathlib

open scoped Classical

/-- A landmark (body part) name, as used in the pose dataframe columns. -/
def BodyPart : Type := String

/-- One row of the pose dataframe: for each landmark either its `(x, y)`
pixel coordinates or `none` when the detection is missing (NaN). -/
def Frame : Type := BodyPart → Option (ℝ × ℝ)

/-- Errors the speed stage can actually raise: Python's `ZeroDivisionError`
from `1 / self.fps` at fps `0`.  The source defines no other error for this
stage (in particular no `InvalidInputError`). -/
inductive PyError where
  | zeroDivisionError

/-- The body of the inner loop of `VideoClipper.calculate_speed`
(lines 39–49): accumulate `total_displacement` and `valid_parts` over the
tracked landmarks, skipping a landmark when either endpoint is missing. -/
noncomputable def speed_accum (f1 f2 : Frame) (acc : ℝ × ℕ) (p : BodyPart) : ℝ × ℕ :=
  match f1 p, f2 p with
  | some c1, some c2 =>
      (acc.1 + Real.sqrt ((c1.1 - c2.1) ^ 2 + (c1.2 - c2.2) ^ 2), acc.2 + 1)
  | _, _ => acc

/-- The per-frame-pair speed of `VideoClipper.calculate_speed`
(lines 36–56): average displacement over landmarks with valid data
(`0` when no landmark is valid), divided by `1 / fps`. -/
noncomputable def pair_speed (fps : ℝ) (bodyparts : List BodyPart) (f1 f2 : Frame) : ℝ :=
  let r := bodyparts.foldl (speed_accum f1 f2) (0, 0)
  let avg_displacement := if 0 < r.2 then r.1 / (r.2 : ℝ) else 0
  avg_displacement / (1 / fps)

/-- The speed series of `VideoClipper.calculate_speed`: one sample per
consecutive frame pair `(i − 1, i)`, `i = 1 .. len − 1`. -/
noncomputable def speeds_list (fps : ℝ) (df : List Frame) (bodyparts : List BodyPart) : List ℝ :=
  (df.zip df.tail).map fun pr => pair_speed fps bodyparts pr.1 pr.2

/-- `VideoClipper.calculate_speed` (lines 27–59).  The loop body divides by
`1 / fps`, which raises `ZeroDivisionError` exactly when `fps = 0` and the
loop runs at least once (at least two frames); otherwise the full speed
series is produced. -/
noncomputable def calculate_speed (fps : ℝ) (df : List Frame) (bodyparts : List BodyPart) :
    Except PyError (List ℝ) :=
  if 2 ≤ df.length ∧ fps = 0 then .error .zeroDivisionError
  else .ok (speeds_list fps df bodyparts)

/-- `pd.Series(speeds).rolling(window=W).mean().fillna(0).tolist()`
(line 63): position `i` is `0` while fewer than `W` samples are available
(`i + 1 < W`, where the incomplete window is `NaN`, then filled with `0`)
and the mean of the trailing window `speeds[i+1−W .. i]` otherwise. -/
def rolling_avg_speeds (W : ℕ) (speeds : List ℚ) : List ℚ :=
  (List.range speeds.length).map fun i =>
    if i + 1 < W then 0 else ((speeds.drop (i + 1 - W)).take W).sum / (W : ℚ)

/-- `np.mean`: arithmetic mean (the empty list never feeds the flagging
loop, so its junk value is irrelevant there). -/
def np_mean (l : List ℚ) : ℚ := l.sum / (l.length : ℚ)

/-- The square of `np.std`: population variance, mean squared deviation. -/
def np_var (l : List ℚ) : ℚ := np_mean (l.map fun x => (x - np_mean l) ^ 2)

/-- `np.std`: population standard deviation. -/
noncomputable def np_std (l : List ℚ) : ℝ := Real.sqrt ((np_var l : ℚ) : ℝ)

/-- `speed_threshold = mean_speed + std_multiplier * std_speed`
(lines 64–66). -/
noncomputable def speed_threshold (k : ℝ) (l : List ℚ) : ℝ :=
  ((np_mean l : ℚ) : ℝ) + k * np_std l

/-- The flagging loop of `VideoClipper.identify_high_speed_frames`
(lines 68–72): `for i, speed in enumerate(rolling_avg_speeds)`, appending
`(i + 1, speed)` whenever `speed > speed_threshold`.  The second component
records the smoothed speed reported by the diagnostic string. -/
noncomputable def flagLoop (t : ℝ) : ℕ → List ℚ → List (ℕ × ℚ)
  | _, [] => []
  | i, s :: rest =>
      if (s : ℝ) > t then (i + 1, s) :: flagLoop t (i + 1) rest
      else flagLoop t (i + 1) rest

/-- `VideoClipper.identify_high_speed_frames` (lines 61–73). -/
noncomputable def identify_high_speed_frames (k : ℝ) (W : ℕ) (speeds : List ℚ) :
    List (ℕ × ℚ) :=
  flagLoop (speed_threshold k (rolling_avg_speeds W speeds)) 0 (rolling_avg_speeds W speeds)

/-- The padded interval of one flagged frame (lines 81–85):
`start = max 0 ((f − 1) / fps − B)`, `end = f / fps + B`. -/
def interval (fps B : ℚ) (f : ℕ) : ℚ × ℚ :=
  (max 0 (((f : ℚ) - 1) / fps - B), (f : ℚ) / fps + B)

/-- The inner merge scan of `VideoClipper.clip_video_segments`
(lines 88–97): walk the existing merged intervals in list order; at the
first overlap (`start ≤ existing_end and end ≥ existing_start`) replace
that interval with the union and stop; append when nothing overlaps. -/
def insertInterval : List (ℚ × ℚ) → ℚ × ℚ → List (ℚ × ℚ)
  | [], n => [n]
  | o :: rest, n =>
      if n.1 ≤ o.2 ∧ n.2 ≥ o.1 then (min n.1 o.1, max n.2 o.2) :: rest
      else o :: insertInterval rest n

/-- The merged time intervals `clip_video_segments` builds from the flagged
frame numbers (lines 77–97), before any clip extraction. -/
def merged_intervals (fps B : ℚ) (frames : List ℕ) : List (ℚ × ℚ) :=
  frames.foldl (fun acc f => insertInterval acc (interval fps B f)) []

/-- The flagged frame numbers consumed by the merge loop
(`for frame_num, reason in self.interesting_frames`; the reason string is
never used past iteration). -/
noncomputable def flagged_frames (k : ℝ) (W : ℕ) (speeds : List ℚ) : List ℕ :=
  (identify_high_speed_frames k W speeds).map Prod.fst

/-- `VideoClipper.clip_video_segments` (lines 75–113), with per-interval
clip extraction abstracted as a fallible collaborator `extract` (the
`try`/`except` around `VideoFileClip(...).subclipped` keeps successful
clips and skips failures).  Returns `none` — the "no valid clips" outcome —
when no interval extracts, otherwise the clips in interval order. -/
def clip_video_segments {α : Type} (extract : ℚ × ℚ → Option α) (fps B : ℚ)
    (flags : List (ℕ × ℚ)) : Option (List α) :=
  let m := merged_intervals fps B (flags.map Prod.fst)
  let clips := m.filterMap extract
  if clips.isEmpty then none else some clips

/-! ## Flagging loop lemmas -/

/-- Membership in the flagging loop: `(n, s)` is emitted iff some position
`j` of the remaining smoothed list holds `s`, the frame number is the
enumeration counter plus `j` plus one, and `s` strictly exceeds the
threshold. -/
lemma flagLoop_mem (t : ℝ) (l : List ℚ) :
    ∀ (i n : ℕ) (s : ℚ), ((n, s) ∈ flagLoop t i l ↔
      ∃ j, l[j]? = some s ∧ n = i + j + 1 ∧ (s : ℝ) > t) := by
  induction l with
  | nil => intro i n s; simp [flagLoop]
  | cons a rest ih =>
      intro i n s
      by_cases h : (a : ℝ) > t
      · simp only [flagLoop, if_pos h, List.mem_cons, ih (i + 1)]
        constructor
        · rintro (heq | ⟨j, hj, hn, hgt⟩)
          · obtain ⟨hn, hs⟩ := Prod.mk.injEq .. ▸ heq
            exact ⟨0, by simp [hs.symm], by omega, by rwa [hs]⟩
          · exact ⟨j + 1, by simpa using hj, by omega, hgt⟩
        · rintro ⟨j, hj, hn, hgt⟩
          cases j with
          | zero =>
              left
              simp only [List.getElem?_cons_zero, Option.some.injEq] at hj
              rw [hj]
              simp [hn]
          | succ j =>
              right
              exact ⟨j, by simpa using hj, by omega, hgt⟩
      · simp only [flagLoop, if_neg h, ih (i + 1)]
        constructor
        · rintro ⟨j, hj, hn, hgt⟩
          exact ⟨j + 1, by simpa using hj, by omega, hgt⟩
        · rintro ⟨j, hj, hn, hgt⟩
          cases j with
          | zero =>
              simp only [List.getElem?_cons_zero, Option.some.injEq] at hj
              exact absurd (hj ▸ hgt) h
          | succ j =>
              exact ⟨j, by simpa using hj, by omega, hgt⟩

/-- The flagging loop emits frame numbers in strictly increasing order. -/
lemma flagLoop_sorted (t : ℝ) (l : List ℚ) :
    ∀ i, ((flagLoop t i l).map Prod.fst).Pairwise (· < ·) := by
  induction l with
  | nil => intro i; simp [flagLoop]
  | cons a rest ih =>
      intro i
      by_cases h : (a : ℝ) > t
      · simp only [flagLoop, if_pos h, List.map_cons]
        refine List.Pairwise.cons ?_ (ih (i + 1))
        intro m hm
        rcases List.mem_map.mp hm with ⟨⟨n, s⟩, hmem, rfl⟩
        rcases (flagLoop_mem t rest (i + 1) n s).mp hmem with ⟨j, -, hn, -⟩
        simpa using by omega
      · simp only [flagLoop, if_neg h]
        exact ih (i + 1)

/-- C2: a frame is flagged iff its smoothed speed strictly exceeds the
threshold `mean + k * (population std)` of the smoothed sequence; the
flagged pair at smoothed position `j` carries frame number `j + 1` together
with the smoothed value the diagnostic string reports, and flags appear in
strictly increasing frame-number order. -/
theorem c2_identify_spec (k : ℝ) (W : ℕ) (speeds : List ℚ) :
    (∀ n s, ((n, s) ∈ identify_high_speed_frames k W speeds ↔
      ∃ j, (rolling_avg_speeds W speeds)[j]? = some s ∧ n = j + 1 ∧
        (s : ℝ) > speed_threshold k (rolling_avg_speeds W speeds))) ∧
    ((identify_high_speed_frames k W speeds).map Prod.fst).Pairwise (· < ·) := by
  constructor
  · intro n s
    rw [identify_high_speed_frames, flagLoop_mem]
    simp
  · exact flagLoop_sorted _ _ 0

/-- C7 (amended): the smoothed sequence has one entry per speed sample;
every position with fewer than `W` samples available is `0`, and every
position with at least `W` samples is the mean of the trailing window of
exactly `W` samples. -/
theorem c7_rolling_spec (W : ℕ) (speeds : List ℚ) :
    (rolling_avg_speeds W speeds).length = speeds.length ∧
    (∀ i, i < speeds.length → i + 1 < W → (rolling_avg_speeds W speeds)[i]? = some 0) ∧
    (∀ i, i < speeds.length → W ≤ i + 1 →
      (rolling_avg_speeds W speeds)[i]? =
        some (((speeds.drop (i + 1 - W)).take W).sum / (W : ℚ)) ∧
      ((speeds.drop (i + 1 - W)).take W).length = W) := by
  refine ⟨by simp [rolling_avg_speeds], ?_, ?_⟩
  · intro i hi hiW
    simp [rolling_avg_speeds, List.getElem?_range, hi, hiW]
  · intro i hi hWi
    have hnot : ¬ i + 1 < W := by omega
    constructor
    · simp [rolling_avg_speeds, List.getElem?_range, hi, hnot]
    · simp only [List.length_take, List.length_drop]
      omega

/-- Witness for C7's amended theorem at `W = 2`, `speeds = [4, 4, 4]`:
position `0` (one sample available) smooths to `0`; position `2` smooths
to the mean of the last two samples. -/
theorem c7_rolling_spec_witness :
    (rolling_avg_speeds 2 [4, 4, 4])[0]? = some 0 ∧
    (rolling_avg_speeds 2 [4, 4, 4])[2]? =
      some (((([4, 4, 4] : List ℚ).drop 1).take 2).sum / (2 : ℚ)) := by
  have h := c7_rolling_spec 2 [4, 4, 4]
  exact ⟨h.2.1 0 (by norm_num) (by norm_num), (h.2.2 2 (by norm_num) (by norm_num)).1⟩

/-- Counterexample to C7 as stated: with `W = 2` and speeds `[4, 4]`,
position `0` has one sample available, whose average-so-far is `4`, yet
the smoothed value is `0`. -/
theorem c7_cex :
    (rolling_avg_speeds 2 [4, 4])[0]? = some 0 ∧
    (rolling_avg_speeds 2 [4, 4])[0]? ≠ some 4 := by
  norm_num [rolling_avg_speeds, List.range_succ]

/-- C9: the detector and the merge step are deterministic — identical
speed series and identical configuration give identical flagged frames and
identical merged time intervals. -/
theorem c9_deterministic (s₁ s₂ : List ℚ) (k₁ k₂ : ℝ) (W₁ W₂ : ℕ) (fps₁ fps₂ B₁ B₂ : ℚ)
    (hs : s₁ = s₂) (hk : k₁ = k₂) (hW : W₁ = W₂) (hfps : fps₁ = fps₂) (hB : B₁ = B₂) :
    identify_high_speed_frames k₁ W₁ s₁ = identify_high_speed_frames k₂ W₂ s₂ ∧
    merged_intervals fps₁ B₁ (flagged_frames k₁ W₁ s₁) =
      merged_intervals fps₂ B₂ (flagged_frames k₂ W₂ s₂) := by
  subst hs hk hW hfps hB
  exact ⟨rfl, rfl⟩

/-- Witness for C9 at one concrete configuration. -/
theorem c9_deterministic_witness :
    identify_high_speed_frames 2 5 [1, 2, 3] = identify_high_speed_frames 2 5 [1, 2, 3] ∧
    merged_intervals 25 (1/5) (flagged_frames 2 5 [1, 2, 3]) =
      merged_intervals 25 (1/5) (flagged_frames 2 5 [1, 2, 3]) :=
  c9_deterministic [1, 2, 3] [1, 2, 3] 2 2 5 5 25 25 (1/5) (1/5) rfl rfl rfl rfl rfl

/-- C10: an empty speed series (fewer than two input frames) flags nothing,
merges to an empty interval list, and `clip_video_segments` takes the
"no valid clips" branch, returning `none` rather than an error. -/
theorem c10_empty_speeds {α : Type} (extract : ℚ × ℚ → Option α) (k : ℝ) (W : ℕ) (fps B : ℚ) :
    identify_high_speed_frames k W [] = [] ∧
    merged_intervals fps B (flagged_frames k W []) = [] ∧
    clip_video_segments extract fps B (identify_high_speed_frames k W []) = none := by
  have h1 : rolling_avg_speeds W [] = [] := by simp [rolling_avg_speeds]
  have h2 : identify_high_speed_frames k W [] = [] := by
    rw [identify_high_speed_frames, h1]
    simp [flagLoop]
  refine ⟨h2, ?_, ?_⟩
  · simp [flagged_frames, h2, merged_intervals]
  · simp [clip_video_segments, h2, merged_intervals]

/-! ## Speed-stage lemmas -/

/-- A landmark with a missing endpoint contributes nothing to the
displacement accumulator (the `np.isnan` guard skips it). -/
lemma speed_accum_missing (f1 f2 : Frame) (p : BodyPart)
    (h : f1 p = none ∨ f2 p = none) (acc : ℝ × ℕ) :
    speed_accum f1 f2 acc p = acc := by
  rcases h with h | h
  · cases hf2 : f2 p <;> simp [speed_accum, h, hf2]
  · cases hf1 : f1 p <;> simp [speed_accum, h, hf1]

/-- When every tracked landmark is missing at one endpoint of the pair, the
accumulator stays at `(0, 0)` and the pair's speed is exactly `0`. -/
lemma pair_speed_all_missing (fps : ℝ) (bp : List BodyPart) (f1 f2 : Frame)
    (h : ∀ p ∈ bp, f1 p = none ∨ f2 p = none) :
    pair_speed fps bp f1 f2 = 0 := by
  have hfold : bp.foldl (speed_accum f1 f2) (0, 0) = ((0 : ℝ), (0 : ℕ)) := by
    induction bp with
    | nil => rfl
    | cons p rest ih =>
        rw [List.foldl_cons, speed_accum_missing f1 f2 p (h p (List.mem_cons_self p rest))]
        exact ih fun q hq => h q (List.mem_cons_of_mem p hq)
  simp only [pair_speed]
  rw [hfold]
  norm_num

/-- The speed series over frames whose transitions all have zero valid
landmarks is the all-zero series of length `len − 1`. -/
lemma speeds_list_all_missing (fps : ℝ) (df : List Frame) (bp : List BodyPart)
    (hmiss : ∀ pr ∈ df.zip df.tail, ∀ p ∈ bp, pr.1 p = none ∨ pr.2 p = none) :
    speeds_list fps df bp = List.replicate (df.length - 1) (0 : ℝ) := by
  have hlen : (df.zip df.tail).length = df.length - 1 := by
    rcases df with - | ⟨a, t⟩
    · rfl
    · simp [List.length_zip]
  rw [List.eq_replicate_iff]
  refine ⟨by simp [speeds_list, hlen], ?_⟩
  intro b hb
  rcases List.mem_map.mp hb with ⟨pr, hpr, rfl⟩
  exact pair_speed_all_missing fps bp pr.1 pr.2 (hmiss pr hpr)

/-- `calculate_speed` succeeds whenever the frame rate is nonzero. -/
lemma calculate_speed_ok (fps : ℝ) (df : List Frame) (bp : List BodyPart)
    (hfps : fps ≠ 0) :
    calculate_speed fps df bp = Except.ok (speeds_list fps df bp) := by
  rw [calculate_speed, if_neg]
  rintro ⟨-, h0⟩
  exact hfps h0

/-- Fewer than two frames yield no frame pairs at all. -/
lemma zip_tail_nil (df : List Frame) (h : df.length < 2) : df.zip df.tail = [] := by
  rcases df with - | ⟨a, t⟩
  · rfl
  · rcases t with - | ⟨b, t'⟩
    · rfl
    · simp at h
      omega

/-- Position `i` of the speed series is the pair speed of frames `i` and
`i + 1` of the run. -/
lemma speeds_list_getElem (fps : ℝ) (df : List Frame) (bp : List BodyPart) (i : ℕ)
    (f1 f2 : Frame) (h1 : df[i]? = some f1) (h2 : df[i + 1]? = some f2) :
    (speeds_list fps df bp)[i]? = some (pair_speed fps bp f1 f2) := by
  have hz : (df.zip df.tail)[i]? = some (f1, f2) := by
    rw [List.getElem?_zip_eq_some]
    refine ⟨h1, ?_⟩
    rw [← List.drop_one, List.getElem?_drop]
    simpa [Nat.add_comm] using h2
  rw [speeds_list, List.getElem?_map, hz, Option.map_some']

/-- C3: any consecutive frame pair of a run in which every tracked landmark
is missing at one or both endpoints yields a speed sample of exactly `0` —
never NaN or undefined — both as a pair computation and at its position of
the emitted series; and the stage still succeeds on the whole run, so the
zero feeds the later statistics without raising. -/
theorem c3_missing_pair_zero (fps : ℝ) (df : List Frame) (bp : List BodyPart) (i : ℕ)
    (f1 f2 : Frame) (hfps : fps ≠ 0)
    (h1 : df[i]? = some f1) (h2 : df[i + 1]? = some f2)
    (hmiss : ∀ p ∈ bp, f1 p = none ∨ f2 p = none) :
    pair_speed fps bp f1 f2 = 0 ∧
    (speeds_list fps df bp)[i]? = some 0 ∧
    calculate_speed fps df bp = Except.ok (speeds_list fps df bp) := by
  have hz := pair_speed_all_missing fps bp f1 f2 hmiss
  refine ⟨hz, ?_, calculate_speed_ok fps df bp hfps⟩
  rw [speeds_list_getElem fps df bp i f1 f2 h1 h2, hz]

/-- Witness for C3 on a mixed run: three frames at 25 fps, where the first
transition has every landmark present and the second transition loses every
landmark — the sample at position `1` is exactly `0`, and the stage
succeeds. -/
theorem c3_missing_pair_zero_witness :
    pair_speed 25 ["nose"] (fun _ => some ((0 : ℝ), 0)) (fun _ => none) = 0 ∧
    (speeds_list 25 [(fun _ => some ((0 : ℝ), 0) : Frame), (fun _ => some ((0 : ℝ), 0)),
      (fun _ => none)] ["nose"])[1]? = some 0 ∧
    calculate_speed 25 [(fun _ => some ((0 : ℝ), 0) : Frame), (fun _ => some ((0 : ℝ), 0)),
      (fun _ => none)] ["nose"] =
      Except.ok (speeds_list 25 [(fun _ => some ((0 : ℝ), 0) : Frame),
        (fun _ => some ((0 : ℝ), 0)), (fun _ => none)] ["nose"]) :=
  c3_missing_pair_zero 25
    [(fun _ => some ((0 : ℝ), 0) : Frame), (fun _ => some ((0 : ℝ), 0)), (fun _ => none)]
    ["nose"] 1 (fun _ => some ((0 : ℝ), 0)) (fun _ => none)
    (by norm_num) rfl rfl (fun p _ => Or.inr rfl)

/-- C8 (amended): none of the "malformed" inputs raises an
`InvalidInputError` (the source defines no such error).  Fewer than two
frames succeed with an empty speed series; an empty landmark set with a
nonzero frame rate succeeds with all-zero speeds; a zero frame rate with at
least two frames raises `ZeroDivisionError` (from `1 / fps`); and any
nonzero frame rate — negative included — never raises. -/
theorem c8_no_invalid_input_error :
    (∀ (fps : ℝ) (df : List Frame) (bp : List BodyPart), df.length < 2 →
      calculate_speed fps df bp = Except.ok []) ∧
    (∀ (fps : ℝ) (df : List Frame), fps ≠ 0 →
      calculate_speed fps df [] = Except.ok (List.replicate (df.length - 1) (0 : ℝ))) ∧
    (∀ (df : List Frame) (bp : List BodyPart), 2 ≤ df.length →
      calculate_speed 0 df bp = Except.error PyError.zeroDivisionError) ∧
    (∀ (fps : ℝ) (df : List Frame) (bp : List BodyPart), fps ≠ 0 →
      calculate_speed fps df bp = Except.ok (speeds_list fps df bp)) := by
  refine ⟨?_, ?_, ?_, ?_⟩
  · intro fps df bp hlen
    rw [calculate_speed, if_neg fun hc => absurd hc.1 (by omega)]
    rw [speeds_list, zip_tail_nil df hlen]
    rfl
  · intro fps df hfps
    rw [calculate_speed_ok fps df [] hfps,
      speeds_list_all_missing fps df [] fun pr _ p hp => absurd hp (List.not_mem_nil p)]
  · intro df bp hlen
    rw [calculate_speed, if_pos ⟨hlen, rfl⟩]
  · intro fps df bp hfps
    exact calculate_speed_ok fps df bp hfps

/-- Witness for C8's amended theorem: a one-frame input succeeds with `[]`;
a two-frame input at fps `−3` with no landmarks succeeds with `[0]`; a
two-frame input at fps `0` raises `ZeroDivisionError`. -/
theorem c8_no_invalid_input_error_witness :
    calculate_speed 25 [(fun _ => none : Frame)] ["nose"] = Except.ok [] ∧
    calculate_speed (-3) [(fun _ => none : Frame), (fun _ => none : Frame)] [] =
      Except.ok (List.replicate 1 (0 : ℝ)) ∧
    calculate_speed 0 [(fun _ => none : Frame), (fun _ => none : Frame)] ["nose"] =
      Except.error PyError.zeroDivisionError := by
  obtain ⟨h1, h2, h3, -⟩ := c8_no_invalid_input_error
  exact ⟨h1 25 _ _ (by norm_num), h2 (-3) _ (by norm_num), h3 _ _ (by norm_num)⟩

/-- Counterexample to C8 as stated: a single-frame input (fewer than two
frames) does not fail at all — the stage returns an empty speed series. -/
theorem c8_cex :
    calculate_speed 25 [(fun _ => none : Frame)] ["paw"] = Except.ok [] := by
  rw [calculate_speed, if_neg]
  · rw [speeds_list, zip_tail_nil _ (by norm_num)]
    rfl
  · rintro ⟨h2, -⟩
    simp at h2

/-! ## Degenerate-threshold lemmas -/

/-- `np.mean` of a nonempty constant list is that constant. -/
lemma np_mean_const (l : List ℚ) (c : ℚ) (hne : l ≠ []) (h : ∀ x ∈ l, x = c) :
    np_mean l = c := by
  have hn : (l.length : ℚ) ≠ 0 :=
    Nat.cast_ne_zero.mpr (List.length_pos.mpr hne).ne'
  have hsum : l.sum = (l.length : ℚ) * c := by
    conv_lhs => rw [List.eq_replicate_length.mpr h]
    rw [List.sum_replicate, nsmul_eq_mul]
  rw [np_mean, hsum, mul_div_cancel_left₀ _ hn]

/-- `np.mean` of an all-zero list is zero (also for the empty list). -/
lemma np_mean_zero (l : List ℚ) (h : ∀ x ∈ l, x = 0) : np_mean l = 0 := by
  rw [np_mean, List.sum_eq_zero h, zero_div]

/-- The population variance of a constant list is zero. -/
lemma np_var_const (l : List ℚ) (c : ℚ) (h : ∀ x ∈ l, x = c) : np_var l = 0 := by
  rcases eq_or_ne l [] with rfl | hne
  · simp [np_var, np_mean]
  · apply np_mean_zero
    intro y hy
    rcases List.mem_map.mp hy with ⟨x, hx, rfl⟩
    rw [np_mean_const l c hne h, h x hx, sub_self]
    norm_num

/-- The flagging loop emits nothing when no smoothed value exceeds the
threshold. -/
lemma flagLoop_nil (t : ℝ) (l : List ℚ) (h : ∀ x ∈ l, ¬((x : ℝ) > t)) :
    ∀ i, flagLoop t i l = [] := by
  induction l with
  | nil => intro i; simp [flagLoop]
  | cons a rest ih =>
      intro i
      rw [flagLoop, if_neg (h a (List.mem_cons_self a rest))]
      exact ih (fun x hx => h x (List.mem_cons_of_mem a hx)) (i + 1)

/-- C6 (amended): whenever the smoothed speed sequence is constant — the
true `σ = 0` degenerate case, e.g. all-zero speeds, or any input shorter
than the window — the detector flags zero frames, for every multiplier
`k`, and the computation is total (no crash).  (A constant *nonzero* raw
speed sequence of length ≥ `W` is not such an input: its smoothed sequence
starts with `W − 1` zeros, so `σ > 0` there; see the counterexample.) -/
theorem c6_const_smoothed_no_flags (k : ℝ) (W : ℕ) (speeds : List ℚ) (c : ℚ)
    (hconst : ∀ x ∈ rolling_avg_speeds W speeds, x = c) :
    identify_high_speed_frames k W speeds = [] := by
  rcases eq_or_ne (rolling_avg_speeds W speeds) [] with hl | hne
  · rw [identify_high_speed_frames, hl]
    simp [flagLoop]
  · have hthr : speed_threshold k (rolling_avg_speeds W speeds) = (c : ℝ) := by
      simp only [speed_threshold, np_std,
        np_var_const _ c hconst, np_mean_const _ c hne hconst]
      simp
    rw [identify_high_speed_frames, hthr]
    apply flagLoop_nil
    intro x hx
    rw [hconst x hx]
    exact lt_irrefl _

/-- Witness for C6's amended theorem: speeds `[2, 2]` with window `5`
smooth to the constant list `[0, 0]`, and nothing is flagged. -/
theorem c6_const_smoothed_no_flags_witness :
    (∀ x ∈ rolling_avg_speeds 5 [2, 2], x = 0) ∧
    identify_high_speed_frames 1 5 [2, 2] = [] := by
  have hc : ∀ x ∈ rolling_avg_speeds 5 [2, 2], x = (0 : ℚ) := by
    norm_num [rolling_avg_speeds, List.range_succ]
  exact ⟨hc, c6_const_smoothed_no_flags 1 5 [2, 2] 0 hc⟩

/-- Counterexample to C6 as stated: the constant speed sequence
`[1, 1, 1, 1, 1]` with window `5` and multiplier `k = 1/2 > 0` flags frame
`5` — the smoothing pads the first four positions with `0`, so the smoothed
sequence `[0, 0, 0, 0, 1]` is not constant and `σ = 2/5 ≠ 0`: threshold
`1/5 + (1/2)(2/5) = 2/5 < 1`. -/
theorem c6_cex :
    (0 : ℝ) < 1/2 ∧
    identify_high_speed_frames (1/2) 5 [1, 1, 1, 1, 1] = [(5, 1)] ∧
    identify_high_speed_frames (1/2) 5 [1, 1, 1, 1, 1] ≠ [] := by
  have hr : rolling_avg_speeds 5 [1, 1, 1, 1, 1] = [0, 0, 0, 0, 1] := by
    norm_num [rolling_avg_speeds, List.range_succ]
  have ht : speed_threshold (1/2) [0, 0, 0, 0, 1] = 2/5 := by
    have hm : np_mean [0, 0, 0, 0, 1] = 1/5 := by norm_num [np_mean]
    have hv : np_var [0, 0, 0, 0, 1] = 4/25 := by norm_num [np_var, np_mean]
    have hs : np_std [0, 0, 0, 0, 1] = 2/5 := by
      rw [np_std, hv]
      rw [show (((4 : ℚ)/25 : ℚ) : ℝ) = (2/5 : ℝ) ^ 2 by push_cast; norm_num]
      exact Real.sqrt_sq (by norm_num)
    rw [speed_threshold, hm, hs]
    push_cast
    norm_num
  have hflag : identify_high_speed_frames (1/2) 5 [1, 1, 1, 1, 1] = [(5, 1)] := by
    rw [identify_high_speed_frames, hr, ht]
    norm_num [flagLoop]
  exact ⟨by norm_num, hflag, by rw [hflag]; simp⟩

/-! ## Interval merge lemmas -/

/-- A padded interval is well-formed (`start ≤ end`) and starts at or after
time zero, for a positive frame rate and nonnegative buffer. -/
lemma interval_wf (fps B : ℚ) (hfps : 0 < fps) (hB : 0 ≤ B) (f : ℕ) :
    (interval fps B f).1 ≤ (interval fps B f).2 ∧ 0 ≤ (interval fps B f).1 := by
  constructor
  · apply max_le
    · exact add_nonneg (div_nonneg (Nat.cast_nonneg f) hfps.le) hB
    · have h1 : ((f : ℚ) - 1) / fps ≤ (f : ℚ) / fps :=
        (div_le_div_iff_of_pos_right hfps).mpr (by linarith)
      simp only [interval]
      linarith
  · exact le_max_left _ _

/-- Padded intervals are monotone in the frame number: a later flagged
frame starts no earlier and ends strictly later. -/
lemma interval_mono (fps B : ℚ) (hfps : 0 < fps) {f g : ℕ} (hfg : f < g) :
    (interval fps B f).1 ≤ (interval fps B g).1 ∧
    (interval fps B f).2 < (interval fps B g).2 := by
  have hc : (f : ℚ) < g := by exact_mod_cast hfg
  constructor
  · apply max_le_max le_rfl
    have h1 : ((f : ℚ) - 1) / fps ≤ ((g : ℚ) - 1) / fps :=
      (div_le_div_iff_of_pos_right hfps).mpr (by linarith)
    linarith
  · have h2 : (f : ℚ) / fps < (g : ℚ) / fps := (div_lt_div_iff_of_pos_right hfps).mpr hc
    simp only [interval]
    linarith

/-- Invariant of one merge-scan step.  When the accumulator is a
well-formed, separated (sorted-with-gaps) interval list whose starts and
ends stay below the incoming interval's start and end — always true in a
run, where flagged frames arrive in increasing order — inserting keeps the
list well-formed and separated, preserves coverage of everything covered
before, covers the new interval, keeps all endpoints bounded by the new
interval's, and keeps all starts above any bound below both the old starts
and the new start. -/
lemma insertInterval_inv (n : ℚ × ℚ) :
    ∀ (acc : List (ℚ × ℚ)),
      (∀ o ∈ acc, o.1 ≤ o.2) →
      acc.Pairwise (fun a b : ℚ × ℚ => a.2 < b.1) →
      (∀ o ∈ acc, o.1 ≤ n.1 ∧ o.2 < n.2) →
      n.1 ≤ n.2 →
      ((∀ r ∈ insertInterval acc n, r.1 ≤ r.2) ∧
       (insertInterval acc n).Pairwise (fun a b : ℚ × ℚ => a.2 < b.1) ∧
       (∀ o ∈ acc, ∃ r ∈ insertInterval acc n, r.1 ≤ o.1 ∧ o.2 ≤ r.2) ∧
       (∃ r ∈ insertInterval acc n, r.1 ≤ n.1 ∧ n.2 ≤ r.2) ∧
       (∀ r ∈ insertInterval acc n, r.1 ≤ n.1 ∧ r.2 ≤ n.2) ∧
       (∀ c : ℚ, (∀ o ∈ acc, c < o.1) → c < n.1 →
         ∀ r ∈ insertInterval acc n, c < r.1)) := by
  intro acc
  induction acc with
  | nil =>
      intro _ _ _ hn
      simp only [insertInterval]
      refine ⟨?_, ?_, ?_, ?_, ?_, ?_⟩
      · intro r hr
        rw [List.mem_singleton.mp hr]
        exact hn
      · exact List.pairwise_singleton _ _
      · intro o ho
        exact absurd ho (List.not_mem_nil o)
      · exact ⟨n, List.mem_singleton_self n, le_rfl, le_rfl⟩
      · intro r hr
        rw [List.mem_singleton.mp hr]
        exact ⟨le_rfl, le_rfl⟩
      · intro c _ hcn r hr
        rw [List.mem_singleton.mp hr]
        exact hcn
  | cons o rest ih =>
      intro hwf hpw hle hn
      obtain ⟨hpw_head, hpw_rest⟩ := List.pairwise_cons.mp hpw
      have ho := hle o (List.mem_cons_self o rest)
      by_cases hov : n.1 ≤ o.2 ∧ n.2 ≥ o.1
      · simp only [insertInterval, if_pos hov]
        have habs : ∀ r ∈ rest, False := by
          intro r hr
          have h1 : o.2 < r.1 := hpw_head r hr
          have h2 : r.1 ≤ n.1 := (hle r (List.mem_cons_of_mem o hr)).1
          have h3 : n.1 ≤ o.2 := hov.1
          linarith
        refine ⟨?_, ?_, ?_, ?_, ?_, ?_⟩
        · intro r hr
          rcases List.mem_cons.mp hr with rfl | hr'
          · exact le_trans (min_le_left _ _) (le_trans hn (le_max_left _ _))
          · exact absurd hr' fun h => habs r h
        · exact List.pairwise_cons.mpr ⟨fun r hr => absurd hr fun h => habs r h, hpw_rest⟩
        · intro o' ho'
          rcases List.mem_cons.mp ho' with rfl | ho''
          · exact ⟨(min n.1 o'.1, max n.2 o'.2),
              List.mem_cons_self _ _, min_le_right _ _, le_max_right _ _⟩
          · exact absurd ho'' fun h => habs o' h
        · exact ⟨(min n.1 o.1, max n.2 o.2),
            List.mem_cons_self _ _, min_le_left _ _, le_max_left _ _⟩
        · intro r hr
          rcases List.mem_cons.mp hr with rfl | hr'
          · exact ⟨min_le_left _ _, max_le le_rfl ho.2.le⟩
          · exact absurd hr' fun h => habs r h
        · intro c hc hcn r hr
          rcases List.mem_cons.mp hr with rfl | hr'
          · exact lt_min hcn (hc o (List.mem_cons_self o rest))
          · exact absurd hr' fun h => habs r h
      · have hnost : o.2 < n.1 := by
          rcases not_and_or.mp hov with h | h
          · exact not_le.mp h
          · exact absurd (le_trans ho.1 hn) h
        simp only [insertInterval, if_neg hov]
        have hwf_rest : ∀ o' ∈ rest, o'.1 ≤ o'.2 :=
          fun o' ho' => hwf o' (List.mem_cons_of_mem o ho')
        have hle_rest : ∀ o' ∈ rest, o'.1 ≤ n.1 ∧ o'.2 < n.2 :=
          fun o' ho' => hle o' (List.mem_cons_of_mem o ho')
        obtain ⟨ih1, ih2, ih3, ih4, ih5, ih6⟩ := ih hwf_rest hpw_rest hle_rest hn
        refine ⟨?_, ?_, ?_, ?_, ?_, ?_⟩
        · intro r hr
          rcases List.mem_cons.mp hr with rfl | hr'
          · exact hwf r (List.mem_cons_self r rest)
          · exact ih1 r hr'
        · refine List.pairwise_cons.mpr ⟨?_, ih2⟩
          intro r hr
          exact ih6 o.2 (fun o' ho' => hpw_head o' ho') hnost r hr
        · intro o' ho'
          rcases List.mem_cons.mp ho' with rfl | ho''
          · exact ⟨o', List.mem_cons_self _ _, le_rfl, le_rfl⟩
          · obtain ⟨r, hr, hr1, hr2⟩ := ih3 o' ho''
            exact ⟨r, List.mem_cons_of_mem o hr, hr1, hr2⟩
        · obtain ⟨r, hr, hr1, hr2⟩ := ih4
          exact ⟨r, List.mem_cons_of_mem o hr, hr1, hr2⟩
        · intro r hr
          rcases List.mem_cons.mp hr with rfl | hr'
          · exact ⟨ho.1, ho.2.le⟩
          · exact ih5 r hr'
        · intro c hc hcn r hr
          rcases List.mem_cons.mp hr with rfl | hr'
          · exact hc r (List.mem_cons_self r rest)
          · exact ih6 c (fun o' ho' => hc o' (List.mem_cons_of_mem o ho')) hcn r hr'

/-- Invariant of the whole merge loop over a strictly increasing flagged
frame list: the accumulated interval list stays well-formed and separated,
keeps covering what it covered, and covers every processed frame's padded
interval. -/
lemma merge_fold_inv (fps B : ℚ) (hfps : 0 < fps) (hB : 0 ≤ B) :
    ∀ (frames : List ℕ), frames.Pairwise (· < ·) →
    ∀ (acc : List (ℚ × ℚ)),
      (∀ o ∈ acc, o.1 ≤ o.2) →
      acc.Pairwise (fun a b : ℚ × ℚ => a.2 < b.1) →
      (∀ f ∈ frames, ∀ o ∈ acc, o.1 ≤ (interval fps B f).1 ∧ o.2 < (interval fps B f).2) →
      ((∀ r ∈ frames.foldl (fun a f => insertInterval a (interval fps B f)) acc,
          r.1 ≤ r.2) ∧
       (frames.foldl (fun a f => insertInterval a (interval fps B f)) acc).Pairwise
         (fun a b : ℚ × ℚ => a.2 < b.1) ∧
       (∀ o ∈ acc, ∃ r ∈ frames.foldl (fun a f => insertInterval a (interval fps B f)) acc,
          r.1 ≤ o.1 ∧ o.2 ≤ r.2) ∧
       (∀ f ∈ frames, ∃ r ∈ frames.foldl (fun a f => insertInterval a (interval fps B f)) acc,
          r.1 ≤ (interval fps B f).1 ∧ (interval fps B f).2 ≤ r.2)) := by
  intro frames
  induction frames with
  | nil =>
      intro _ acc hwf hpw _
      exact ⟨hwf, hpw, fun o ho => ⟨o, ho, le_rfl, le_rfl⟩,
        fun f hf => absurd hf (List.not_mem_nil f)⟩
  | cons f rest ih =>
      intro hs acc hwf hpw hbound
      obtain ⟨hsf, hsrest⟩ := List.pairwise_cons.mp hs
      have hn := interval_wf fps B hfps hB f
      obtain ⟨h1, h2, h3, h4, h5, -⟩ :=
        insertInterval_inv (interval fps B f) acc hwf hpw
          (hbound f (List.mem_cons_self f rest)) hn.1
      have hbound' : ∀ g ∈ rest, ∀ o ∈ insertInterval acc (interval fps B f),
          o.1 ≤ (interval fps B g).1 ∧ o.2 < (interval fps B g).2 := by
        intro g hg o ho
        have hmono := interval_mono fps B hfps (hsf g hg)
        exact ⟨le_trans (h5 o ho).1 hmono.1, lt_of_le_of_lt (h5 o ho).2 hmono.2⟩
      obtain ⟨r1, r2, r3, r4⟩ :=
        ih hsrest (insertInterval acc (interval fps B f)) h1 h2 hbound'
      rw [List.foldl_cons]
      refine ⟨r1, r2, ?_, ?_⟩
      · intro o ho
        obtain ⟨r', hr', hr'1, hr'2⟩ := h3 o ho
        obtain ⟨r, hr, hra, hrb⟩ := r3 r' hr'
        exact ⟨r, hr, le_trans hra hr'1, le_trans hr'2 hrb⟩
      · intro g hg
        rcases List.mem_cons.mp hg with rfl | hg'
        · obtain ⟨r', hr', hr'1, hr'2⟩ := h4
          obtain ⟨r, hr, hra, hrb⟩ := r3 r' hr'
          exact ⟨r, hr, le_trans hra hr'1, le_trans hr'2 hrb⟩
        · exact r4 g hg'

/-- C1: in a pipeline run (flagged frames come out of the detector in
strictly increasing order), the merged intervals are pairwise disjoint with
no negative-duration interval, and each flagged frame's padded interval
`(max 0 ((f−1)/fps − B), f/fps + B)` is fully contained in exactly one
output interval. -/
theorem c1_merged_disjoint_cover (k : ℝ) (W : ℕ) (speeds : List ℚ) (fps B : ℚ)
    (hfps : 0 < fps) (hB : 0 ≤ B) :
    (∀ r ∈ merged_intervals fps B (flagged_frames k W speeds), r.1 ≤ r.2) ∧
    (merged_intervals fps B (flagged_frames k W speeds)).Pairwise
      (fun a b : ℚ × ℚ => ¬(a.1 ≤ b.2 ∧ b.1 ≤ a.2)) ∧
    (∀ f ∈ flagged_frames k W speeds,
      ∃ r ∈ merged_intervals fps B (flagged_frames k W speeds),
        (r.1 ≤ (interval fps B f).1 ∧ (interval fps B f).2 ≤ r.2) ∧
        ∀ r' ∈ merged_intervals fps B (flagged_frames k W speeds),
          (r'.1 ≤ (interval fps B f).1 ∧ (interval fps B f).2 ≤ r'.2) → r' = r) := by
  have hsorted : (flagged_frames k W speeds).Pairwise (· < ·) := flagLoop_sorted _ _ 0
  obtain ⟨h1, h2, -, h4⟩ :=
    merge_fold_inv fps B hfps hB (flagged_frames k W speeds) hsorted []
      (fun o ho => absurd ho (List.not_mem_nil o)) List.Pairwise.nil
      (fun f _ o ho => absurd ho (List.not_mem_nil o))
  have hdisj : (merged_intervals fps B (flagged_frames k W speeds)).Pairwise
      (fun a b : ℚ × ℚ => ¬(a.1 ≤ b.2 ∧ b.1 ≤ a.2)) :=
    h2.imp fun hab hcon => absurd hcon.2 (not_le.mpr hab)
  refine ⟨h1, hdisj, ?_⟩
  intro f hf
  obtain ⟨r, hr, hra, hrb⟩ := h4 f hf
  refine ⟨r, hr, ⟨hra, hrb⟩, ?_⟩
  intro r' hr' hcov'
  by_contra hne
  have hsym : Symmetric (fun a b : ℚ × ℚ => ¬(a.1 ≤ b.2 ∧ b.1 ≤ a.2)) :=
    fun a b hab hcon => hab ⟨hcon.2, hcon.1⟩
  have hwfi := interval_wf fps B hfps hB f
  exact hdisj.forall hsym hr' hr hne
    ⟨le_trans hcov'.1 (le_trans hwfi.1 hrb), le_trans hra (le_trans hwfi.1 hcov'.2)⟩

/-- Witness for C1 at a concrete configuration (fps 25, buffer 1/5). -/
theorem c1_merged_disjoint_cover_witness :
    0 < (25 : ℚ) ∧ 0 ≤ (1/5 : ℚ) ∧
    (∀ r ∈ merged_intervals 25 (1/5) (flagged_frames 2 5 [1, 2, 3]), r.1 ≤ r.2) ∧
    (merged_intervals 25 (1/5) (flagged_frames 2 5 [1, 2, 3])).Pairwise
      (fun a b : ℚ × ℚ => ¬(a.1 ≤ b.2 ∧ b.1 ≤ a.2)) ∧
    (∀ f ∈ flagged_frames 2 5 [1, 2, 3],
      ∃ r ∈ merged_intervals 25 (1/5) (flagged_frames 2 5 [1, 2, 3]),
        (r.1 ≤ (interval 25 (1/5) f).1 ∧ (interval 25 (1/5) f).2 ≤ r.2) ∧
        ∀ r' ∈ merged_intervals 25 (1/5) (flagged_frames 2 5 [1, 2, 3]),
          (r'.1 ≤ (interval 25 (1/5) f).1 ∧ (interval 25 (1/5) f).2 ≤ r'.2) → r' = r) :=
  ⟨by norm_num, by norm_num,
    c1_merged_disjoint_cover 2 5 [1, 2, 3] 25 (1/5) (by norm_num) (by norm_num)⟩

/-- Appending case of the merge scan: a new interval overlapping no
existing interval is appended at the end. -/
lemma insertInterval_append (n : ℚ × ℚ) :
    ∀ acc : List (ℚ × ℚ), (∀ o ∈ acc, ¬(n.1 ≤ o.2 ∧ n.2 ≥ o.1)) →
      insertInterval acc n = acc ++ [n] := by
  intro acc
  induction acc with
  | nil => intro _; rfl
  | cons o rest ih =>
      intro h
      simp only [insertInterval, if_neg (h o (List.mem_cons_self o rest)), List.cons_append,
        List.cons.injEq, true_and]
      exact ih fun o' ho' => h o' (List.mem_cons_of_mem o ho')

/-- First-match case of the merge scan: if every interval before position
`|pre|` fails the overlap test and the one at that position passes it, that
interval alone is replaced by the union and the scan stops — the suffix
`post` is returned untouched, even if the union now overlaps it. -/
lemma insertInterval_first (n o : ℚ × ℚ) (post : List (ℚ × ℚ)) :
    ∀ pre : List (ℚ × ℚ), (∀ p ∈ pre, ¬(n.1 ≤ p.2 ∧ n.2 ≥ p.1)) →
      (n.1 ≤ o.2 ∧ n.2 ≥ o.1) →
      insertInterval (pre ++ o :: post) n = pre ++ (min n.1 o.1, max n.2 o.2) :: post := by
  intro pre
  induction pre with
  | nil =>
      intro _ hov
      simp only [List.nil_append, insertInterval, if_pos hov]
  | cons p pre' ih =>
      intro hpre hov
      simp only [List.cons_append, insertInterval,
        if_neg (hpre p (List.mem_cons_self p pre')), List.cons.injEq, true_and]
      exact ih (fun q hq => hpre q (List.mem_cons_of_mem p hq)) hov

/-- C4: the merge compares each new interval against the existing merged
list in list order; at the first overlap (`new_start ≤ existing_end` and
`new_end ≥ existing_start`) that interval is replaced by the union and the
scan stops — the rest of the list is left untouched, so a union that newly
bridges a later interval is not re-merged in the same pass — and an
interval overlapping nothing is appended. -/
theorem c4_first_match (n : ℚ × ℚ) (acc : List (ℚ × ℚ)) :
    ((∀ o ∈ acc, ¬(n.1 ≤ o.2 ∧ n.2 ≥ o.1)) → insertInterval acc n = acc ++ [n]) ∧
    (∀ (pre post : List (ℚ × ℚ)) (o : ℚ × ℚ),
      acc = pre ++ o :: post →
      (∀ p ∈ pre, ¬(n.1 ≤ p.2 ∧ n.2 ≥ p.1)) →
      (n.1 ≤ o.2 ∧ n.2 ≥ o.1) →
      insertInterval acc n = pre ++ (min n.1 o.1, max n.2 o.2) :: post) := by
  refine ⟨insertInterval_append n acc, ?_⟩
  intro pre post o hacc hpre hov
  rw [hacc]
  exact insertInterval_first n o post pre hpre hov

/-- Witness for C4: inserting `(1/2, 5/2)` into `[(0, 1), (2, 3)]` merges
with the first interval only, yielding `[(0, 5/2), (2, 3)]` — the union
`(0, 5/2)` overlaps `(2, 3)` but is not re-merged; and inserting the
non-overlapping `(3, 4)` into `[(0, 1)]` appends it. -/
theorem c4_first_match_witness :
    insertInterval [((0 : ℚ), 1), (2, 3)] (1/2, 5/2) = [(0, 5/2), (2, 3)] ∧
    insertInterval [((0 : ℚ), 1)] (3, 4) = [(0, 1), (3, 4)] := by
  constructor
  · have h := (c4_first_match ((1/2 : ℚ), 5/2) [((0 : ℚ), 1), (2, 3)]).2
      [] [(2, 3)] (0, 1) rfl (by simp) (by norm_num)
    rw [h]
    norm_num [min_def, max_def]
  · have h := (c4_first_match ((3 : ℚ), 4) [((0 : ℚ), 1)]).1 (by norm_num)
    rw [h]
    rfl

/-- C5: the padded interval of flagged frame `f` is exactly
`(max 0 ((f−1)/fps − B), f/fps + B)` — as a singleton merge run shows —
its start is never negative, and for the first possible flagged frame
`f = 1` the start is clamped to exactly `0`. -/
theorem c5_interval_formula (fps B : ℚ) (f : ℕ) (hB : 0 ≤ B) :
    merged_intervals fps B [f] =
      [(max 0 (((f : ℚ) - 1) / fps - B), (f : ℚ) / fps + B)] ∧
    0 ≤ (interval fps B f).1 ∧
    (interval fps B 1).1 = 0 := by
  refine ⟨rfl, le_max_left _ _, ?_⟩
  have h1 : ((1 : ℕ) : ℚ) - 1 = 0 := by norm_num
  simp only [interval, h1, zero_div, zero_sub]
  exact max_eq_left (neg_nonpos.mpr hB)

/-- Witness for C5 at `fps = 25`, `B = 1/5`, `f = 1`. -/
theorem c5_interval_formula_witness :
    merged_intervals 25 (1/5) [1] =
      [(max 0 ((((1 : ℕ) : ℚ) - 1) / 25 - 1/5), ((1 : ℕ) : ℚ) / 25 + 1/5)] ∧
    0 ≤ (interval 25 (1/5) 1).1 ∧
    (interval 25 (1/5) 1).1 = 0 :=
  c5_interval_formula 25 (1/5) 1 (by norm_num)
